import Mathlib

/-!
Shallow embedding of the OledLogger library (`src/OledLogger.h`,
`src/OledLogger.cpp`): a bounded FreeRTOS message channel with a
drop-oldest producer path (`sendOrDropOldest`), an interrupt-context
producer path (`logFromISR`), message formatting/sanitation, the
`begin` initialization sequence, and the consumer task (`taskFunc`)
that maintains a circular line buffer and renders it oldest-first.

Byte buffers are modelled as `List Nat` (byte values); machine strings
are null-terminated within their fixed 64-byte buffer (`msg_t::txt`).
The FreeRTOS queue is modelled as a `List` of messages with its fixed
capacity passed explicitly; non-blocking `xQueueSend` fails exactly
when the queue is full, `xQueueReceive` with zero timeout fails exactly
when it is empty (sequential, single-threaded semantics).
-/

namespace OledLogger

/-- A byte buffer: a list of byte values. `msg_t.txt` is 64 bytes
(OledLogger.h line 36). -/
abbrev Buf := List Nat

/-- Capacity of `msg_t::txt`: `sizeof(m.txt) = 64`. -/
def msgCap : Nat := 64

/-- Bytes of the C string held in a buffer: the bytes strictly before
the first null byte. -/
def cstr : List Nat → List Nat
  | [] => []
  | x :: r => if x = 0 then [] else x :: cstr r

/-- Length of the C string held in a buffer (index of its first null). -/
def textLen (b : List Nat) : Nat := (cstr b).length

/-- Sanitation loop of `logf` (OledLogger.cpp lines 119-125): walk the
buffer; a byte below 0x20 that is the null terminator stops the loop
(the remainder of the buffer is left untouched), any other byte below
0x20 is replaced by `?` (0x3F); bytes at or above 0x20 are kept. -/
def sanitizeLogf : List Nat → List Nat
  | [] => []
  | b :: rest =>
    if b < 0x20 then
      if b = 0 then b :: rest
      else 0x3F :: sanitizeLogf rest
    else b :: sanitizeLogf rest

/-- Sanitation loop of `logFromISR` (OledLogger.cpp lines 137-143),
transcribed from its own occurrence in the source: byte-wise identical
control-character stripping. -/
def sanitizeISR : List Nat → List Nat
  | [] => []
  | b :: rest =>
    if b < 0x20 then
      if b = 0 then b :: rest
      else 0x3F :: sanitizeISR rest
    else b :: sanitizeISR rest

/-- `vsnprintf(dst, size, fmt, ap)` (OledLogger.cpp line 116), with the
full formatted character sequence `s` (which, being the character
output of `vsnprintf`, contains no null byte) given as input: it writes
`min |s| (size-1)` characters, then a terminating null; the bytes of
the destination beyond the terminator keep their previous
(indeterminate) content `junk`. -/
def vsnprintfBuf (size : Nat) (s junk : List Nat) : List Nat :=
  let n := min s.length (size - 1)
  s.take n ++ [0] ++ junk.take (size - n - 1)

/-- `strncpy(dst, src, n)` where `src` holds the character sequence of
a C string (no null byte): copies at most `n` characters and pads the
remainder of the `n` bytes with nulls. -/
def strncpyPad (n : Nat) (src : List Nat) : List Nat :=
  src.take n ++ List.replicate (n - src.length) 0

/-- The message buffer built by `logFromISR` (OledLogger.cpp lines
133-135): `strncpy(m.txt, utf8msg, sizeof(m.txt)-1)` followed by
`m.txt[sizeof(m.txt)-1] = 0`. The source C string is the portion of
`src` before its first null. -/
def isrBuf (src : List Nat) : List Nat :=
  strncpyPad (msgCap - 1) (cstr src) ++ [0]

/-- The sanitized message text enqueued by `logf` for a formatted
output `formatted` and destination garbage `junk`. -/
def logfMsg (formatted junk : List Nat) : List Nat :=
  sanitizeLogf (vsnprintfBuf msgCap formatted junk)

/-- The sanitized message text enqueued by `logFromISR`. -/
def isrMsg (src : List Nat) : List Nat :=
  sanitizeISR (isrBuf src)

/-- Non-blocking `xQueueSend(q, &m, 0)`: enqueue at the back when the
queue holds fewer than `cap` items (returns `pdTRUE`), otherwise fail
leaving the queue unchanged (returns `pdFALSE`). -/
def xQueueSend (cap : Nat) (q : List Buf) (m : Buf) : Bool × List Buf :=
  if q.length < cap then (true, q ++ [m]) else (false, q)

/-- Non-blocking `xQueueReceive(q, &tmp, 0)`: dequeue the front item
when available. -/
def xQueueReceive (q : List Buf) : Option Buf × List Buf :=
  match q with
  | [] => (none, [])
  | x :: rest => (some x, rest)

/-- `xQueueSendFromISR(q, &m, &woken)`: same non-blocking enqueue as
`xQueueSend` with zero timeout. -/
def xQueueSendFromISR (cap : Nat) (q : List Buf) (m : Buf) : Bool × List Buf :=
  if q.length < cap then (true, q ++ [m]) else (false, q)

/-- `OledLogger::sendOrDropOldest` (OledLogger.cpp lines 97-107): try a
non-blocking send; if it fails (queue full), receive one oldest entry
(non-blocking) and send again. -/
def sendOrDropOldest (cap : Nat) (q : List Buf) (m : Buf) : List Buf :=
  let r1 := xQueueSend cap q m
  if r1.1 then r1.2
  else
    let r2 := xQueueReceive q
    (xQueueSend cap r2.2 m).2

/-- The static state of the logger: the queue handle (with its buffered
contents when non-null), the display handle, the stored queue capacity,
and counters of currently live (allocated, not yet freed) queue and
display objects, used to express resource release. -/
structure LoggerState where
  queue : Option (List Buf)
  display : Bool
  queueLen : Nat
  liveQueues : Nat
  liveDisplays : Nat
deriving DecidableEq

/-- The state after static initialization (OledLogger.cpp lines 6-12):
null handles, default queue length 16, nothing allocated. -/
def initLogger : LoggerState :=
  { queue := none, display := false, queueLen := 16,
    liveQueues := 0, liveDisplays := 0 }

/-- `OledLogger::isReady` (OledLogger.cpp lines 14-16):
`_queue != nullptr && _display != nullptr`. -/
def isReady (s : LoggerState) : Bool := s.queue.isSome && s.display

/-- `OledLogger::begin` (OledLogger.cpp lines 18-95). The outcome of
each fallible external step is an explicit input: `allocOk` (the
`new Adafruit_SSD1306` allocation), `dispBeginOk` (`_display->begin`),
`queueOk` (`xQueueCreate`), `taskOk` (`xTaskCreatePinnedToCore`).
Stores the clamped queue length, then allocates the display, starts it,
creates the queue, creates the task; on each failure it frees what the
failing path frees in the source and returns `false`. -/
def begin (s : LoggerState) (queue_len : Nat)
    (allocOk dispBeginOk queueOk taskOk : Bool) : Bool × LoggerState :=
  let ql := if queue_len < 1 then 1 else queue_len
  let s0 := { s with queueLen := ql }
  if !allocOk then
    (false, { s0 with display := false })
  else
    let s1 := { s0 with display := true, liveDisplays := s0.liveDisplays + 1 }
    if !dispBeginOk then
      (false, { s1 with display := false, liveDisplays := s1.liveDisplays - 1 })
    else if !queueOk then
      (false, { s1 with queue := none, display := false,
                        liveDisplays := s1.liveDisplays - 1 })
    else
      let s2 := { s1 with queue := some [], liveQueues := s1.liveQueues + 1 }
      if !taskOk then
        (false, { s2 with queue := none, liveQueues := s2.liveQueues - 1,
                          display := false, liveDisplays := s2.liveDisplays - 1 })
      else (true, s2)

/-- `OledLogger::logf` (OledLogger.cpp lines 109-128): return at once
when `_queue` is null; otherwise format into the 64-byte text buffer,
sanitize it, and `sendOrDropOldest` the message. -/
def logf (s : LoggerState) (formatted junk : List Nat) : LoggerState :=
  match s.queue with
  | none => s
  | some q =>
      { s with queue := some (sendOrDropOldest s.queueLen q (logfMsg formatted junk)) }

/-- `OledLogger::logFromISR` (OledLogger.cpp lines 130-149): return
`pdFALSE` at once when `_queue` is null; otherwise copy and sanitize
the text and attempt a single non-blocking `xQueueSendFromISR`,
returning its result. -/
def logFromISR (s : LoggerState) (src : List Nat) : Bool × LoggerState :=
  match s.queue with
  | none => (false, s)
  | some q =>
      let r := xQueueSendFromISR s.queueLen q (isrMsg src)
      (r.1, { s with queue := some r.2 })

/-- `MAX_LINES` (OledLogger.cpp line 164). -/
def MAX_LINES : Nat := 16

/-- `LINE_HEIGHT = 8 * TEXT_SIZE` with `TEXT_SIZE = 1` (lines 160-161). -/
def LINE_HEIGHT : Nat := 8

/-- `LINES = clamp(_height / LINE_HEIGHT, 1, MAX_LINES)` (lines 167-168). -/
def computeLines (height : Nat) : Nat :=
  max 1 (min (height / LINE_HEIGHT) MAX_LINES)

/-- A ring-buffer row holding 64 null bytes: the zero-initialized
static `lines` rows (line 171-175); as a C string, the empty string. -/
def zeroRow : List Nat := List.replicate msgCap 0

/-- One ring-buffer row after `strncpy(lines[w], incoming.txt, 64)`
followed by `lines[w][63] = 0` (OledLogger.cpp lines 186-187): the C
string of `incoming.txt` copied and null-padded to 64 bytes, with the
last byte forced to null. -/
def rowStore (buf : List Nat) : List Nat :=
  (strncpyPad msgCap (cstr buf)).set (msgCap - 1) 0

/-- Consumer-task state: `writeIndex` (an `int`, initialized to `-1`)
and the `lines` ring buffer of `MAX_LINES` rows. -/
structure ConsumerState where
  writeIndex : Int
  lines : List (List Nat)
deriving DecidableEq

/-- Consumer state at task start (OledLogger.cpp lines 170-179). -/
def initConsumer : ConsumerState :=
  { writeIndex := -1, lines := List.replicate MAX_LINES zeroRow }

/-- One iteration of the consumer loop body after `xQueueReceive`
succeeds (OledLogger.cpp lines 184-187): advance `writeIndex`
circularly and store the incoming text into that row. The C `%` on
`int` agrees with `Int.emod` on every value arising here, since
`writeIndex + 1` is never negative (`writeIndex` starts at `-1`). -/
def consumeStep (L : Nat) (s : ConsumerState) (incoming : List Nat) : ConsumerState :=
  let wi : Int := (s.writeIndex + 1) % (L : Int)
  { writeIndex := wi, lines := s.lines.set wi.toNat (rowStore incoming) }

/-- The redraw of one frame (OledLogger.cpp lines 194-206): row `i` of
the display shows ring entry `(start + i) % LINES` where
`start = (writeIndex + 1) % LINES` is the oldest entry. -/
def renderRows (L : Nat) (s : ConsumerState) : List (List Nat) :=
  let start : Int := (s.writeIndex + 1) % (L : Int)
  (List.range L).map (fun i => s.lines.getD ((start.toNat + i) % L) [])

/-- The consumer state after processing the messages `ms` in order,
starting from task start. -/
def runConsumer (L : Nat) (ms : List Buf) : ConsumerState :=
  ms.foldl (consumeStep L) initConsumer

/-! ### Basic facts about C strings and sanitation -/

lemma mem_cstr_ne_zero : ∀ {b : List Nat} {x : Nat}, x ∈ cstr b → x ≠ 0 := by
  intro b
  induction b with
  | nil => intro x hx; simp [cstr] at hx
  | cons a r ih =>
      intro x hx
      by_cases ha : a = 0
      · simp [cstr, ha] at hx
      · simp only [cstr, if_neg ha, List.mem_cons] at hx
        rcases hx with h | h
        · exact h ▸ ha
        · exact ih h

lemma cstr_append_zero (A B : List Nat) (hA : ∀ x ∈ A, x ≠ 0) :
    cstr (A ++ (0 :: B)) = A := by
  induction A with
  | nil => simp [cstr]
  | cons a r ih =>
      have ha : a ≠ 0 := hA a (by simp)
      simp only [List.cons_append, cstr, if_neg ha, List.append_eq]
      rw [ih (fun x hx => hA x (by simp [hx]))]

lemma sanitizeLogf_append_zero (A B : List Nat) (hA : ∀ x ∈ A, x ≠ 0) :
    sanitizeLogf (A ++ (0 :: B)) =
      A.map (fun x => if x < 0x20 then 0x3F else x) ++ (0 :: B) := by
  induction A with
  | nil => simp [sanitizeLogf]
  | cons a r ih =>
      have ha : a ≠ 0 := hA a (by simp)
      have ih' := ih (fun x hx => hA x (by simp [hx]))
      by_cases h : a < 0x20
      · simp only [List.cons_append, sanitizeLogf, if_pos h, if_neg ha, ih',
          List.map_cons, if_pos h, List.append_eq]
      · simp only [List.cons_append, sanitizeLogf, if_neg h, ih',
          List.map_cons, List.append_eq]

lemma textLen_sanitizeLogf (b : List Nat) :
    textLen (sanitizeLogf b) = textLen b := by
  induction b with
  | nil => rfl
  | cons a r ih =>
      by_cases h : a < 0x20
      · by_cases ha : a = 0
        · simp [sanitizeLogf, h, ha]
        · simp only [sanitizeLogf, if_pos h, if_neg ha, textLen, cstr] at ih ⊢
          simp [ih, ha]
      · have ha : a ≠ 0 := by omega
        simp only [sanitizeLogf, if_neg h, textLen, cstr, if_neg ha] at ih ⊢
        simp [ih]

lemma sanitizeLogf_getD (b : List Nat) (i : Nat) (hi : i < textLen b) :
    (sanitizeLogf b).getD i 0 =
      (if b.getD i 0 < 0x20 then 0x3F else b.getD i 0) ∧ b.getD i 0 ≠ 0 := by
  induction b generalizing i with
  | nil => simp [textLen, cstr] at hi
  | cons a r ih =>
      by_cases ha : a = 0
      · subst ha; simp [textLen, cstr] at hi
      · cases i with
        | zero =>
            by_cases h : a < 0x20
            · simp [sanitizeLogf, h, ha]
            · simp [sanitizeLogf, h, ha]
        | succ i =>
            have hi' : i < textLen r := by
              simp only [textLen, cstr, if_neg ha, List.length_cons] at hi
              simp only [textLen]
              omega
            have := ih i hi'
            by_cases h : a < 0x20
            · simpa [sanitizeLogf, h, ha] using this
            · simpa [sanitizeLogf, h, ha] using this

lemma sanitizeLogf_idem (b : List Nat) :
    sanitizeLogf (sanitizeLogf b) = sanitizeLogf b := by
  induction b with
  | nil => rfl
  | cons a r ih =>
      by_cases h : a < 0x20
      · by_cases ha : a = 0
        · subst ha; simp [sanitizeLogf]
        · simp [sanitizeLogf, h, ha, ih]
      · simp [sanitizeLogf, h, ih]

lemma sanitize_paths_eq (b : List Nat) : sanitizeLogf b = sanitizeISR b := by
  induction b with
  | nil => rfl
  | cons a r ih => simp only [sanitizeLogf, sanitizeISR, ih]

/-- C3. Sanitation correctness and idempotence: on every byte of the
message text (the bytes strictly before the terminating null), the
sanitized buffer holds `?` (0x3F) where the input byte was below 0x20
and the unchanged byte otherwise, hence every text byte of the result
is at least 0x20; the text length is unchanged; and applying the
sanitation pass twice yields the same buffer as applying it once. -/
theorem C3_sanitation_idempotent (b : List Nat) (i : Nat) (hi : i < textLen b) :
    (sanitizeLogf b).getD i 0 =
      (if b.getD i 0 < 0x20 then 0x3F else b.getD i 0) ∧
    0x20 ≤ (sanitizeLogf b).getD i 0 ∧
    textLen (sanitizeLogf b) = textLen b ∧
    sanitizeLogf (sanitizeLogf b) = sanitizeLogf b := by
  obtain ⟨h1, h2⟩ := sanitizeLogf_getD b i hi
  refine ⟨h1, ?_, textLen_sanitizeLogf b, sanitizeLogf_idem b⟩
  rw [h1]
  split
  · omega
  · next h => omega

/-- Evaluation of `C3_sanitation_idempotent` on the concrete buffer
`[5, 65, 0]` at text index 0. -/
theorem C3_sanitation_idempotent_witness :
    0 < textLen [5, 65, 0] ∧
      ((sanitizeLogf [5, 65, 0]).getD 0 0 =
        (if List.getD [5, 65, 0] 0 0 < 0x20 then 0x3F
         else List.getD [5, 65, 0] 0 0) ∧
      0x20 ≤ (sanitizeLogf [5, 65, 0]).getD 0 0 ∧
      textLen (sanitizeLogf [5, 65, 0]) = textLen [5, 65, 0] ∧
      sanitizeLogf (sanitizeLogf [5, 65, 0]) = sanitizeLogf [5, 65, 0]) :=
  ⟨by decide, C3_sanitation_idempotent [5, 65, 0] 0 (by decide)⟩

/-- C8. Sanitation path equivalence: the sanitation loop of `logf`
(blocking path) and the sanitation loop of `logFromISR` (interrupt
path) compute the same function on every buffer content. -/
theorem C8_sanitation_path_equiv (b : List Nat) :
    sanitizeLogf b = sanitizeISR b :=
  sanitize_paths_eq b

/-! ### The bounded channel: drop-oldest send path -/

lemma sendOrDropOldest_not_full (cap : Nat) (q : List Buf) (m : Buf)
    (h : q.length < cap) : sendOrDropOldest cap q m = q ++ [m] := by
  simp [sendOrDropOldest, xQueueSend, h]

lemma sendOrDropOldest_full (cap : Nat) (q : List Buf) (m : Buf)
    (hcap : 1 ≤ cap) (h : q.length = cap) :
    sendOrDropOldest cap q m = q.tail ++ [m] := by
  cases q with
  | nil => simp at h; omega
  | cons x rest =>
      have h' : rest.length + 1 = cap := by simpa using h
      have hnot : ¬ (rest.length + 1 < cap) := by omega
      have hrest : rest.length < cap := by omega
      simp [sendOrDropOldest, xQueueSend, xQueueReceive, hnot, hrest]

lemma foldl_sendOrDropOldest (cap : Nat) (hcap : 1 ≤ cap) (ms : List Buf) :
    List.foldl (sendOrDropOldest cap) [] ms = ms.drop (ms.length - cap) := by
  induction ms using List.reverseRecOn with
  | nil => simp
  | append_singleton ms m ih =>
      rw [List.foldl_append, List.foldl_cons, List.foldl_nil, ih]
      by_cases h : ms.length < cap
      · rw [sendOrDropOldest_not_full cap _ m
          (by simpa using Nat.lt_of_le_of_lt (Nat.sub_le _ _) h)]
        have h0 : ms.length - cap = 0 := by omega
        have h1 : ms.length + 1 - cap = 0 := by omega
        simp [h0, h1]
      · have hlen : (ms.drop (ms.length - cap)).length = cap := by
          simp only [List.length_drop]; omega
        rw [sendOrDropOldest_full cap _ m hcap hlen, List.tail_drop]
        have h2 : (ms ++ [m]).length - cap = (ms.length - cap + 1) := by
          simp only [List.length_append, List.length_cons, List.length_nil]
          omega
        rw [h2, List.drop_append_of_le_length (by omega)]

/-- C1. FIFO with drop-oldest eviction: sending `cap + 1` messages
sequentially into an initially empty channel of capacity `cap ≥ 1`
leaves the channel holding exactly the last `cap` messages in send
order (`ms.drop 1`, i.e. all but the first), which is what draining in
FIFO order yields; on any send into a full channel,
`sendOrDropOldest` evicts exactly the single oldest buffered message
and appends the new one at the back; and every `logf` on a state with
a non-null channel sends its formatted, sanitized message through
`sendOrDropOldest`. -/
theorem C1_fifo_drop_oldest (cap : Nat) (hcap : 1 ≤ cap)
    (ms : List Buf) (hms : ms.length = cap + 1)
    (q : List Buf) (m : Buf) (hq : q.length = cap)
    (st : LoggerState) (q0 : List Buf) (fm junk : List Nat)
    (hst : st.queue = some q0) :
    List.foldl (sendOrDropOldest cap) [] ms = ms.drop 1 ∧
    sendOrDropOldest cap q m = q.tail ++ [m] ∧
    (logf st fm junk).queue =
      some (sendOrDropOldest st.queueLen q0 (logfMsg fm junk)) := by
  refine ⟨?_, sendOrDropOldest_full cap q m hcap hq, by simp [logf, hst]⟩
  rw [foldl_sendOrDropOldest cap hcap ms, hms]
  simp

/-- Evaluation of `C1_fifo_drop_oldest` at capacity 2 with three sent
messages: the channel retains the last two in order, and a full
channel evicts exactly its oldest entry. -/
theorem C1_fifo_drop_oldest_witness :
    (1 ≤ 2 ∧ ([[65], [66], [67]] : List Buf).length = 2 + 1 ∧
      ([[65], [66]] : List Buf).length = 2 ∧
      (LoggerState.mk (some []) true 2 1 1).queue = some []) ∧
    (List.foldl (sendOrDropOldest 2) [] [[65], [66], [67]] =
        ([[65], [66], [67]] : List Buf).drop 1 ∧
      sendOrDropOldest 2 [[65], [66]] [67] =
        ([[65], [66]] : List Buf).tail ++ [[67]] ∧
      (logf (LoggerState.mk (some []) true 2 1 1) [72] []).queue =
        some (sendOrDropOldest
          (LoggerState.mk (some []) true 2 1 1).queueLen [] (logfMsg [72] []))) :=
  ⟨⟨by decide, by decide, by decide, rfl⟩,
    C1_fifo_drop_oldest 2 (by decide) [[65], [66], [67]] (by decide)
      [[65], [66]] [67] (by decide)
      (LoggerState.mk (some []) true 2 1 1) [] [72] [] rfl⟩

/-- C9. Sequential no-loss of the new message: with an initialized
channel and no concurrent consumer, `sendOrDropOldest` always enqueues
its own message — the result is the previous contents (minus the
evicted oldest entry exactly when the channel was full) with the new
message at the back, so the new message is never the one dropped and
is the newest entry afterward. -/
theorem C9_new_message_never_lost (cap : Nat) (hcap : 1 ≤ cap)
    (q : List Buf) (m : Buf) (hq : q.length ≤ cap) :
    sendOrDropOldest cap q m =
      (if q.length < cap then q else q.tail) ++ [m] ∧
    (sendOrDropOldest cap q m).getLast? = some m := by
  by_cases h : q.length < cap
  · rw [sendOrDropOldest_not_full cap q m h]
    simp [h]
  · have hfull : q.length = cap := by omega
    rw [sendOrDropOldest_full cap q m hcap hfull]
    simp [h]

/-- Evaluation of `C9_new_message_never_lost` on a full channel of
capacity 1: the new message replaces the old one and is the newest
entry. -/
theorem C9_new_message_never_lost_witness :
    (1 ≤ 1 ∧ ([[65]] : List Buf).length ≤ 1) ∧
    (sendOrDropOldest 1 [[65]] [66] =
        (if ([[65]] : List Buf).length < 1 then [[65]]
         else ([[65]] : List Buf).tail) ++ [[66]] ∧
      (sendOrDropOldest 1 [[65]] [66]).getLast? = some [66]) :=
  ⟨⟨by decide, by decide⟩,
    C9_new_message_never_lost 1 (by decide) [[65]] [66] (by decide)⟩

/-! ### Truncation safety of the two message-construction paths -/

lemma getD_append_length_zero (A B : List Nat) :
    (A ++ (0 :: B)).getD A.length 1 = 0 := by
  rw [List.getD_append_right A (0 :: B) 1 A.length (le_refl _)]
  simp

lemma sanitize_decomp (A B : List Nat) (hA : ∀ x ∈ A, x ≠ 0) :
    (sanitizeLogf (A ++ (0 :: B))).length = A.length + 1 + B.length ∧
    textLen (sanitizeLogf (A ++ (0 :: B))) = A.length ∧
    (sanitizeLogf (A ++ (0 :: B))).getD (A.length) 1 = 0 := by
  rw [sanitizeLogf_append_zero A B hA]
  have hmap : ∀ x ∈ A.map (fun x => if x < 0x20 then 0x3F else x), x ≠ 0 := by
    intro x hx
    simp only [List.mem_map] at hx
    obtain ⟨y, hy, rfl⟩ := hx
    have := hA y hy
    split <;> omega
  refine ⟨?_, ?_, ?_⟩
  · simp only [List.length_append, List.length_map, List.length_cons]
    omega
  · unfold textLen
    rw [cstr_append_zero _ B hmap]
    simp
  · have h := getD_append_length_zero
      (A.map (fun x => if x < 0x20 then 0x3F else x)) B
    rwa [List.length_map] at h

lemma vsnprintfBuf_decomp (s junk : List Nat) :
    vsnprintfBuf msgCap s junk =
      s.take (min s.length 63) ++
        (0 :: junk.take (63 - min s.length 63)) := by
  simp only [vsnprintfBuf, msgCap]
  have h : 64 - min s.length (64 - 1) - 1 = 63 - min s.length 63 := by omega
  have h2 : min s.length (64 - 1) = min s.length 63 := by omega
  rw [h, h2, List.append_assoc, List.singleton_append]

lemma isrBuf_decomp (src : List Nat) :
    isrBuf src =
      (cstr src).take 63 ++
        (0 :: List.replicate (63 - (cstr src).length) 0) := by
  simp only [isrBuf, strncpyPad, msgCap]
  rw [List.append_assoc, ← List.replicate_succ', List.replicate_succ]

/-- C4. Truncation safety: on the `logf` path, the stored message
buffer has exactly the 64 bytes of `msg_t::txt`, its text is the
formatted output truncated to `min |s| 63` bytes (at most `C - 1 = 63`
content bytes) and is null-terminated right after the text, inside the
buffer; on the `logFromISR` path, the stored buffer likewise has
exactly 64 bytes, text truncated to at most 63 bytes and
null-terminated inside the buffer. No byte outside the 64-byte buffer
is ever produced. -/
theorem C4_truncation_safety (s junk src : List Nat) (hs : 0 ∉ s)
    (hj : junk.length = 63) :
    (logfMsg s junk).length = msgCap ∧
    textLen (logfMsg s junk) = min s.length (msgCap - 1) ∧
    textLen (logfMsg s junk) ≤ msgCap - 1 ∧
    (logfMsg s junk).getD (textLen (logfMsg s junk)) 1 = 0 ∧
    (isrMsg src).length = msgCap ∧
    textLen (isrMsg src) = min (textLen src) (msgCap - 1) ∧
    textLen (isrMsg src) ≤ msgCap - 1 ∧
    (isrMsg src).getD (textLen (isrMsg src)) 1 = 0 := by
  have hlogf : logfMsg s junk =
      sanitizeLogf (s.take (min s.length 63) ++
        (0 :: junk.take (63 - min s.length 63))) := by
    rw [logfMsg, vsnprintfBuf_decomp]
  have hisr : isrMsg src =
      sanitizeLogf ((cstr src).take 63 ++
        (0 :: List.replicate (63 - (cstr src).length) 0)) := by
    rw [isrMsg, ← sanitize_paths_eq, isrBuf_decomp]
  have hAs : ∀ x ∈ s.take (min s.length 63), x ≠ 0 := fun x hx hx0 =>
    hs (hx0 ▸ List.take_subset _ s hx)
  have hAc : ∀ x ∈ (cstr src).take 63, x ≠ 0 := fun x hx =>
    mem_cstr_ne_zero (List.take_subset _ _ hx)
  obtain ⟨hl1, hl2, hl3⟩ := sanitize_decomp (s.take (min s.length 63))
    (junk.take (63 - min s.length 63)) hAs
  obtain ⟨hi1, hi2, hi3⟩ := sanitize_decomp ((cstr src).take 63)
    (List.replicate (63 - (cstr src).length) 0) hAc
  have hAslen : (s.take (min s.length 63)).length = min s.length 63 := by
    simp only [List.length_take]; omega
  have hAclen : ((cstr src).take 63).length = min (cstr src).length 63 := by
    simp only [List.length_take]; omega
  rw [hAslen] at hl1 hl2 hl3
  rw [hAclen] at hi1 hi2 hi3
  rw [hlogf, hisr]
  simp only [msgCap]
  refine ⟨?_, ?_, ?_, ?_, ?_, ?_, ?_, ?_⟩
  · rw [hl1]
    simp only [List.length_take, List.length_replicate, hj]
    omega
  · rw [hl2]
  · rw [hl2]; omega
  · rw [hl2]; exact hl3
  · rw [hi1]
    simp only [List.length_replicate]
    omega
  · rw [hi2]; unfold textLen; omega
  · rw [hi2]; omega
  · rw [hi2]; exact hi3

/-- Evaluation of `C4_truncation_safety` on a 100-byte raw input and a
3-character formatted output: both paths stay within the 64-byte
buffer. -/
theorem C4_truncation_safety_witness :
    ((0 : Nat) ∉ [72, 5, 73] ∧
      (List.replicate 63 7 : List Nat).length = 63) ∧
    ((logfMsg [72, 5, 73] (List.replicate 63 7)).length = msgCap ∧
      textLen (logfMsg [72, 5, 73] (List.replicate 63 7)) =
        min ([72, 5, 73] : List Nat).length (msgCap - 1) ∧
      textLen (logfMsg [72, 5, 73] (List.replicate 63 7)) ≤ msgCap - 1 ∧
      (logfMsg [72, 5, 73] (List.replicate 63 7)).getD
        (textLen (logfMsg [72, 5, 73] (List.replicate 63 7))) 1 = 0 ∧
      (isrMsg (List.replicate 100 66)).length = msgCap ∧
      textLen (isrMsg (List.replicate 100 66)) =
        min (textLen (List.replicate 100 66)) (msgCap - 1) ∧
      textLen (isrMsg (List.replicate 100 66)) ≤ msgCap - 1 ∧
      (isrMsg (List.replicate 100 66)).getD
        (textLen (isrMsg (List.replicate 100 66))) 1 = 0) :=
  ⟨⟨by decide, by decide⟩,
    C4_truncation_safety [72, 5, 73] (List.replicate 63 7)
      (List.replicate 100 66) (by decide) (by decide)⟩

/-! ### The consumer: ring-buffer update and rendering -/

lemma rowStore_length (b : List Nat) : (rowStore b).length = msgCap := by
  simp only [rowStore, strncpyPad, List.length_set, List.length_append,
    List.length_take, List.length_replicate, msgCap]
  omega

lemma rowStore_getD_last (b : List Nat) : (rowStore b).getD (msgCap - 1) 1 = 0 := by
  have hlen : (rowStore b).length = msgCap := rowStore_length b
  rw [List.getD_eq_getElem (rowStore b) 1 (by rw [hlen]; decide)]
  simp only [rowStore, msgCap]
  rw [List.getElem_set_self (by
    have := rowStore_length b
    simp only [rowStore, msgCap] at this
    omega)]

lemma zeroRow_length : zeroRow.length = msgCap := by
  simp [zeroRow]

lemma zeroRow_getD_last : zeroRow.getD (msgCap - 1) 1 = 0 := by decide

lemma runConsumer_rows_wf (L : Nat) (ms : List Buf) :
    ∀ row ∈ (runConsumer L ms).lines,
      row.length = msgCap ∧ row.getD (msgCap - 1) 1 = 0 := by
  suffices h : ∀ (s : ConsumerState),
      (∀ row ∈ s.lines, row.length = msgCap ∧ row.getD (msgCap - 1) 1 = 0) →
      ∀ row ∈ (ms.foldl (consumeStep L) s).lines,
        row.length = msgCap ∧ row.getD (msgCap - 1) 1 = 0 by
    refine h initConsumer ?_
    intro row hrow
    rw [initConsumer] at hrow
    simp only [List.mem_replicate] at hrow
    rw [hrow.2]
    exact ⟨zeroRow_length, zeroRow_getD_last⟩
  induction ms with
  | nil => intro s hs; simpa using hs
  | cons m rest ih =>
      intro s hs
      rw [List.foldl_cons]
      refine ih _ ?_
      intro row hrow
      simp only [consumeStep] at hrow
      rcases List.mem_or_eq_of_mem_set hrow with h | h
      · exact hs row h
      · rw [h]
        exact ⟨rowStore_length m, rowStore_getD_last m⟩

lemma runConsumer_fill (L : Nat) (hL1 : 1 ≤ L) (hL16 : L ≤ MAX_LINES)
    (ms : List Buf) (hk : ms.length ≤ L) :
    (runConsumer L ms).writeIndex = (ms.length : Int) - 1 ∧
    (runConsumer L ms).lines =
      ms.map rowStore ++ List.replicate (MAX_LINES - ms.length) zeroRow := by
  induction ms using List.reverseRecOn with
  | nil =>
      refine ⟨by simp [runConsumer, initConsumer], ?_⟩
      simp [runConsumer, initConsumer]
  | append_singleton ms m ih =>
      have hlen : ms.length < L := by
        simp only [List.length_append, List.length_cons,
          List.length_nil] at hk
        omega
      obtain ⟨hw, hl⟩ := ih (Nat.le_of_lt hlen)
      have hstep : runConsumer L (ms ++ [m]) =
          consumeStep L (runConsumer L ms) m := by
        simp [runConsumer, List.foldl_append]
      have hwi : ((runConsumer L ms).writeIndex + 1) % (L : Int) =
          ((ms.length : Nat) : Int) := by
        rw [hw]
        have h1 : (ms.length : Int) - 1 + 1 = (ms.length : Int) := by ring
        rw [h1]
        exact Int.emod_eq_of_lt (Int.natCast_nonneg _) (by exact_mod_cast hlen)
      rw [hstep]
      constructor
      · simp only [consumeStep]
        rw [hwi]
        have h2 : ((ms ++ [m]).length : Int) = (ms.length : Int) + 1 := by
          simp [List.length_append]
        rw [h2]
        ring
      · simp only [consumeStep]
        rw [hwi, Int.toNat_ofNat, hl]
        rw [List.set_append_right _ _ (by simp [List.length_map])]
        have hrep : MAX_LINES - ms.length = (MAX_LINES - ms.length - 1) + 1 := by
          simp only [MAX_LINES] at hL16 ⊢
          omega
        rw [List.length_map, Nat.sub_self, hrep, List.replicate_succ,
          List.set_cons_zero]
        simp only [List.map_append, List.map_cons, List.map_nil,
          List.append_assoc, List.singleton_append, List.length_append,
          List.length_cons, List.length_nil, List.nil_append]
        rw [Nat.sub_sub]

lemma getD_replicate_of_lt {α : Type _} (a d : α) (n i : Nat) (h : i < n) :
    (List.replicate n a).getD i d = a := by
  rw [List.getD_eq_getElem (List.replicate n a) d (by simpa using h)]
  simp

lemma renderRows_fill (L : Nat) (hL1 : 1 ≤ L) (hL16 : L ≤ MAX_LINES)
    (ms : List Buf) (hk : ms.length ≤ L) :
    renderRows L (runConsumer L ms) =
      List.replicate (L - ms.length) zeroRow ++ ms.map rowStore := by
  obtain ⟨hw, hl⟩ := runConsumer_fill L hL1 hL16 ms hk
  have hstart : (((runConsumer L ms).writeIndex + 1) % (L : Int)).toNat =
      ms.length % L := by
    rw [hw]
    have h1 : (ms.length : Int) - 1 + 1 = (ms.length : Int) := by ring
    rw [h1, ← Int.natCast_mod, Int.toNat_ofNat]
  simp only [renderRows, hstart, hl]
  apply List.ext_getElem
  · simp only [List.length_map, List.length_range, List.length_append,
      List.length_replicate]
    omega
  · intro i h1 h2
    have hi2 : i < L := by simpa using h1
    rw [List.getElem_map, List.getElem_range,
      ← List.getD_eq_getElem
        (List.replicate (L - ms.length) zeroRow ++ ms.map rowStore) [] h2]
    by_cases hc : i < L - ms.length
    · have hlt : ms.length < L := by omega
      have hidx : (ms.length % L + i) % L = ms.length + i := by
        rw [Nat.mod_eq_of_lt hlt]
        exact Nat.mod_eq_of_lt (by omega)
      rw [hidx,
        List.getD_append_right _ _ _ _ (by simp only [List.length_map]; omega),
        List.length_map]
      have he : ms.length + i - ms.length = i := by omega
      rw [he,
        getD_replicate_of_lt _ _ _ _ (by simp only [MAX_LINES] at hL16 ⊢; omega),
        List.getD_append _ _ _ _ (by simp only [List.length_replicate]; omega),
        getD_replicate_of_lt _ _ _ _ hc]
    · push_neg at hc
      have hidx : (ms.length % L + i) % L = ms.length + i - L := by
        rcases Nat.lt_or_ge ms.length L with h | h
        · rw [Nat.mod_eq_of_lt h, Nat.mod_eq_sub_mod (by omega),
            Nat.mod_eq_of_lt (by omega)]
        · have hEq : ms.length = L := by omega
          rw [hEq, Nat.mod_self, Nat.zero_add, Nat.mod_eq_of_lt hi2]
          omega
      rw [hidx,
        List.getD_append _ _ _ _ (by simp only [List.length_map]; omega),
        List.getD_append_right _ _ _ _
          (by simp only [List.length_replicate]; omega),
        List.length_replicate]
      have hidx2 : i - (L - ms.length) = ms.length + i - L := by omega
      rw [hidx2]

lemma renderRows_wrap (L : Nat) (hL1 : 1 ≤ L) (hL16 : L ≤ MAX_LINES)
    (ms : List Buf) (hk : ms.length = L + 1) :
    renderRows L (runConsumer L ms) = (ms.map rowStore).drop 1 := by
  have hne : ms ≠ [] := by
    intro h
    rw [h] at hk
    simp at hk
  obtain ⟨ys, m, hsplit⟩ : ∃ ys m, ms = ys ++ [m] :=
    ⟨ms.dropLast, ms.getLast hne, (List.dropLast_append_getLast hne).symm⟩
  subst hsplit
  have hys : ys.length = L := by
    simp only [List.length_append, List.length_cons, List.length_nil] at hk
    omega
  obtain ⟨hw, hl⟩ := runConsumer_fill L hL1 hL16 ys (Nat.le_of_eq hys)
  have hstep : runConsumer L (ys ++ [m]) =
      consumeStep L (runConsumer L ys) m := by
    simp [runConsumer, List.foldl_append]
  rw [hstep]
  have hwi : ((runConsumer L ys).writeIndex + 1) % (L : Int) = 0 := by
    rw [hw, hys]
    have h1 : ((L : Nat) : Int) - 1 + 1 = ((L : Nat) : Int) := by ring
    rw [h1]
    exact Int.emod_self
  have hstart : (((0 : Int) + 1) % (L : Int)).toNat = 1 % L := by
    have h0 : ((0 : Int) + 1) = ((1 : Nat) : Int) := by norm_num
    rw [h0, ← Int.natCast_mod, Int.toNat_ofNat]
  simp only [renderRows, consumeStep, hwi, Int.toNat_zero, hstart, hl, hys]
  rw [List.set_append_left _ _ (by simp only [List.length_map, hys]; omega)]
  apply List.ext_getElem
  · simp only [List.length_map, List.length_range, List.length_append,
      List.length_drop, List.length_cons, List.length_nil]
    omega
  · intro i h1 h2
    have hi2 : i < L := by simpa using h1
    have hmaplen : ((ys.map rowStore).set 0 (rowStore m)).length = L := by
      simp only [List.length_set, List.length_map, hys]
    rw [List.getElem_map, List.getElem_range]
    have hrhs : ((ys ++ [m]).map rowStore).drop 1 =
        (ys.map rowStore).drop 1 ++ [rowStore m] := by
      rw [List.map_append,
        List.drop_append_of_le_length (by simp only [List.length_map, hys]; omega)]
      simp
    rw [← List.getD_eq_getElem (((ys ++ [m]).map rowStore).drop 1) [] h2, hrhs]
    by_cases hc : i < L - 1
    · have hL2 : 2 ≤ L := by omega
      have hidx : (1 % L + i) % L = 1 + i := by
        rw [Nat.mod_eq_of_lt (show 1 < L by omega)]
        exact Nat.mod_eq_of_lt (by omega)
      rw [hidx,
        List.getD_append ((ys.map rowStore).set 0 (rowStore m))
          (List.replicate (MAX_LINES - L) zeroRow) [] (1 + i)
          (by rw [hmaplen]; omega),
        List.getD_eq_getElem ((ys.map rowStore).set 0 (rowStore m)) []
          (by rw [hmaplen]; omega),
        List.getElem_set_ne (show (0 : Nat) ≠ 1 + i by omega),
        List.getD_append ((ys.map rowStore).drop 1) [rowStore m] [] i
          (by simp only [List.length_drop, List.length_map, hys]; omega),
        List.getD_eq_getElem ((ys.map rowStore).drop 1) []
          (by simp only [List.length_drop, List.length_map, hys]; omega),
        List.getElem_drop, List.getElem_map]
    · have hieq : i = L - 1 := by omega
      have hidx : (1 % L + i) % L = 0 := by
        rcases Nat.lt_or_ge 1 L with h | h
        · rw [Nat.mod_eq_of_lt h, hieq, Nat.add_sub_cancel' (by omega),
            Nat.mod_self]
        · have hL1' : L = 1 := by omega
          rw [hL1'] at hieq ⊢
          rw [hieq]
      rw [hidx,
        List.getD_append ((ys.map rowStore).set 0 (rowStore m))
          (List.replicate (MAX_LINES - L) zeroRow) [] 0
          (by rw [hmaplen]; omega),
        List.getD_eq_getElem ((ys.map rowStore).set 0 (rowStore m)) []
          (by rw [hmaplen]; omega),
        List.getElem_set_self
          (by simp only [List.length_set, List.length_map, hys]; omega),
        List.getD_append_right ((ys.map rowStore).drop 1) [rowStore m] [] i
          (by simp only [List.length_drop, List.length_map, hys]; omega)]
      have hz : i - ((ys.map rowStore).drop 1).length = 0 := by
        simp only [List.length_drop, List.length_map, hys]
        omega
      rw [hz]
      simp

lemma renderRows_getD (L : Nat) (s : ConsumerState) (i : Nat) (hi : i < L) :
    (renderRows L s).getD i [] =
      s.lines.getD ((((s.writeIndex + 1) % (L : Int)).toNat + i) % L) [] := by
  simp only [renderRows]
  rw [List.getD_eq_getElem ((List.range L).map
      (fun j => s.lines.getD ((((s.writeIndex + 1) % (L : Int)).toNat + j) % L) []))
    [] (by simpa using hi)]
  rw [List.getElem_map, List.getElem_range]

/-- C2. Ring-buffer rendering order: starting from consumer start with
all rows empty, after processing `k ≤ L` messages the rendered rows
top-to-bottom are `L - k` empty rows followed by the `k` messages in
arrival order (oldest first, newest at the bottom); after processing
`L + 1` messages the rendered rows are messages 2 through `L + 1` in
order, so row 0 shows the second message and the last row shows the
newest; and in every state, visible row `i` displays ring entry
`(oldestIndex + i) % L` where `oldestIndex = (writeIndex + 1) % L`. -/
theorem C2_ring_buffer_order (L : Nat) (hL1 : 1 ≤ L) (hL16 : L ≤ MAX_LINES)
    (ms ms2 : List Buf) (hk : ms.length ≤ L) (hk2 : ms2.length = L + 1)
    (s : ConsumerState) (i : Nat) (hi : i < L) :
    renderRows L (runConsumer L ms) =
      List.replicate (L - ms.length) zeroRow ++ ms.map rowStore ∧
    renderRows L (runConsumer L ms2) = (ms2.map rowStore).drop 1 ∧
    (renderRows L s).getD i [] =
      s.lines.getD ((((s.writeIndex + 1) % (L : Int)).toNat + i) % L) [] :=
  ⟨renderRows_fill L hL1 hL16 ms hk, renderRows_wrap L hL1 hL16 ms2 hk2,
    renderRows_getD L s i hi⟩

/-- Evaluation of `C2_ring_buffer_order` for the default-geometry row
count `L = 8` (`computeLines 64`): two messages fill the bottom, nine
messages wrap so that row 0 shows the second message. -/
theorem C2_ring_buffer_order_witness :
    (1 ≤ 8 ∧ (8 : Nat) ≤ MAX_LINES ∧ computeLines 64 = 8 ∧
      ([[65], [66]] : List Buf).length ≤ 8 ∧
      ([[49], [50], [51], [52], [53], [54], [55], [56], [57]] : List Buf).length
        = 8 + 1 ∧ (0 : Nat) < 8) ∧
    (renderRows 8 (runConsumer 8 [[65], [66]]) =
      List.replicate (8 - ([[65], [66]] : List Buf).length) zeroRow ++
        ([[65], [66]] : List Buf).map rowStore ∧
    renderRows 8
        (runConsumer 8 [[49], [50], [51], [52], [53], [54], [55], [56], [57]]) =
      (([[49], [50], [51], [52], [53], [54], [55], [56], [57]] : List Buf).map
        rowStore).drop 1 ∧
    (renderRows 8 initConsumer).getD 0 [] =
      initConsumer.lines.getD
        ((((initConsumer.writeIndex + 1) % (8 : Int)).toNat + 0) % 8) []) :=
  ⟨⟨by decide, by decide, by decide, by decide, by decide, by decide⟩,
    C2_ring_buffer_order 8 (by decide) (by decide) [[65], [66]]
      [[49], [50], [51], [52], [53], [54], [55], [56], [57]] (by decide)
      (by decide) initConsumer 0 (by decide)⟩

/-- C10. Partial-fill rendering layout: when only `k < L` messages have
been processed since consumer start, every one of the top `L - k`
rendered rows is the never-written empty row, every bottom row `j`
(`L - k ≤ j < L`) shows message `j - (L - k)` in oldest-to-newest
order (so the newest message is on the bottom row), and after every
update each ring-buffer row is exactly 64 bytes with a null in its
last byte (null-terminated within its capacity). -/
theorem C10_partial_fill (L : Nat) (hL1 : 1 ≤ L) (hL16 : L ≤ MAX_LINES)
    (ms : List Buf) (hk : ms.length < L) (i j : Nat)
    (hi : i < L - ms.length) (hj1 : L - ms.length ≤ j) (hj2 : j < L) :
    (renderRows L (runConsumer L ms)).getD i [] = zeroRow ∧
    (renderRows L (runConsumer L ms)).getD j [] =
      rowStore (ms.getD (j - (L - ms.length)) []) ∧
    ((runConsumer L ms).lines.all
      (fun row => row.length == msgCap && row.getD (msgCap - 1) 1 == 0)) = true := by
  have hfill := renderRows_fill L hL1 hL16 ms (Nat.le_of_lt hk)
  refine ⟨?_, ?_, ?_⟩
  · rw [hfill,
      List.getD_append (List.replicate (L - ms.length) zeroRow)
        (ms.map rowStore) [] i (by simp only [List.length_replicate]; omega),
      getD_replicate_of_lt _ _ _ _ hi]
  · rw [hfill,
      List.getD_append_right (List.replicate (L - ms.length) zeroRow)
        (ms.map rowStore) [] j (by simp only [List.length_replicate]; omega),
      List.length_replicate,
      List.getD_eq_getElem (ms.map rowStore) []
        (by simp only [List.length_map]; omega),
      List.getElem_map,
      List.getD_eq_getElem ms [] (by omega)]
  · rw [List.all_eq_true]
    intro row hrow
    obtain ⟨h1, h2⟩ := runConsumer_rows_wf L ms row hrow
    rw [List.getD_eq_getElem?_getD] at h2
    simp [h1, h2]

/-- Evaluation of `C10_partial_fill` at `L = 8` with three processed
messages: row 0 is empty, row 5 shows the first message, and all ring
rows are null-terminated 64-byte buffers. -/
theorem C10_partial_fill_witness :
    (1 ≤ 8 ∧ (8 : Nat) ≤ MAX_LINES ∧
      ([[65], [66], [67]] : List Buf).length < 8 ∧
      (0 : Nat) < 8 - ([[65], [66], [67]] : List Buf).length ∧
      8 - ([[65], [66], [67]] : List Buf).length ≤ 5 ∧ (5 : Nat) < 8) ∧
    ((renderRows 8 (runConsumer 8 [[65], [66], [67]])).getD 0 [] = zeroRow ∧
    (renderRows 8 (runConsumer 8 [[65], [66], [67]])).getD 5 [] =
      rowStore (([[65], [66], [67]] : List Buf).getD
        (5 - (8 - ([[65], [66], [67]] : List Buf).length)) []) ∧
    ((runConsumer 8 [[65], [66], [67]]).lines.all
      (fun row => row.length == msgCap && row.getD (msgCap - 1) 1 == 0)) = true) :=
  ⟨⟨by decide, by decide, by decide, by decide, by decide, by decide⟩,
    C10_partial_fill 8 (by decide) (by decide) [[65], [66], [67]] (by decide)
      0 5 (by decide) (by decide) (by decide)⟩

/-! ### Initialization, readiness, and producer guards -/

/-- C6. Interrupt-context rejection is atomic: a `logFromISR` into a
full channel returns `pdFALSE` and leaves the whole logger state — in
particular the channel's buffered contents and their order — exactly
unchanged; nothing is evicted and nothing is retried. -/
theorem C6_isr_rejection_atomic (s : LoggerState) (q : List Buf) (src : List Nat)
    (hq : s.queue = some q) (hfull : s.queueLen ≤ q.length) :
    logFromISR s src = (false, s) := by
  cases s with
  | mk qu disp ql lq ld =>
      simp only at hq hfull
      subst hq
      have hnot : ¬ (q.length < ql) := by omega
      simp [logFromISR, xQueueSendFromISR, hnot]

/-- Evaluation of `C6_isr_rejection_atomic` on a full one-slot
channel. -/
theorem C6_isr_rejection_atomic_witness :
    ((LoggerState.mk (some [[65]]) true 1 1 1).queue = some [[65]] ∧
      (LoggerState.mk (some [[65]]) true 1 1 1).queueLen ≤
        ([[65]] : List Buf).length) ∧
    logFromISR (LoggerState.mk (some [[65]]) true 1 1 1) [66] =
      (false, LoggerState.mk (some [[65]]) true 1 1 1) :=
  ⟨⟨rfl, by decide⟩,
    C6_isr_rejection_atomic (LoggerState.mk (some [[65]]) true 1 1 1)
      [[65]] [66] rfl (by decide)⟩

/-- C5. Not-ready no-op: while the channel handle is null — which is
the case in the boot state and after every failed `begin`, so exactly
until initialization succeeds — `logf` leaves the state untouched,
`logFromISR` leaves the state untouched and returns `pdFALSE`
(not accepted), and `isReady` is `false`; moreover every failed
`begin` leaves the channel handle null and the logger not ready. -/
theorem C5_not_ready_noop (s : LoggerState) (hq : s.queue = none)
    (fm junk src : List Nat) (ql : Nat) (a b c d : Bool)
    (hfail : (begin initLogger ql a b c d).1 = false) :
    logf s fm junk = s ∧ logFromISR s src = (false, s) ∧
    isReady s = false ∧
    (begin initLogger ql a b c d).2.queue = none ∧
    isReady (begin initLogger ql a b c d).2 = false := by
  refine ⟨by simp [logf, hq], by simp [logFromISR, hq],
    by simp [isReady, hq], ?_, ?_⟩ <;>
    cases a <;> cases b <;> cases c <;> cases d <;>
      simp_all [begin, initLogger, isReady]

/-- Evaluation of `C5_not_ready_noop` on the boot state together with
a `begin` whose display allocation fails. -/
theorem C5_not_ready_noop_witness :
    (initLogger.queue = none ∧
      (begin initLogger 16 false true true true).1 = false) ∧
    (logf initLogger [65] [] = initLogger ∧
      logFromISR initLogger [66] = (false, initLogger) ∧
      isReady initLogger = false ∧
      (begin initLogger 16 false true true true).2.queue = none ∧
      isReady (begin initLogger 16 false true true true).2 = false) :=
  ⟨⟨rfl, by decide⟩,
    C5_not_ready_noop initLogger rfl [65] [] [66] 16 false true true true
      (by decide)⟩

/-- C7. Initialization atomicity and readiness: for every combination
of step outcomes, after `begin` runs from the boot state, `isReady`
equals the boolean `begin` returned (ready iff both the channel and
the display initialized successfully); and whenever `begin` returns
`false`, both handles are null and every display instance and queue
allocated before the failing step has been released (no live resource
remains). -/
theorem C7_begin_atomic (ql : Nat) (a b c d : Bool) :
    isReady (begin initLogger ql a b c d).2 = (begin initLogger ql a b c d).1 ∧
    ((begin initLogger ql a b c d).1 = false →
      (begin initLogger ql a b c d).2.queue = none ∧
      (begin initLogger ql a b c d).2.display = false ∧
      (begin initLogger ql a b c d).2.liveDisplays = 0 ∧
      (begin initLogger ql a b c d).2.liveQueues = 0) := by
  cases a <;> cases b <;> cases c <;> cases d <;>
    simp [begin, initLogger, isReady]

/-- Evaluation of `C7_begin_atomic` on a `begin` whose task creation
(the last step) fails: everything is released. -/
theorem C7_begin_atomic_witness :
    ((begin initLogger 8 true true true false).1 = false) ∧
    (isReady (begin initLogger 8 true true true false).2 =
        (begin initLogger 8 true true true false).1 ∧
      ((begin initLogger 8 true true true false).2.queue = none ∧
        (begin initLogger 8 true true true false).2.display = false ∧
        (begin initLogger 8 true true true false).2.liveDisplays = 0 ∧
        (begin initLogger 8 true true true false).2.liveQueues = 0)) :=
  ⟨by decide,
    ⟨(C7_begin_atomic 8 true true true false).1,
      (C7_begin_atomic 8 true true true false).2 (by decide)⟩⟩

end OledLogger
